import Mathlib

/-!
Verification of the display-list conversion of an annotated source snippet
(`src/display_list.rs`): the header formatter, the body layout engine
(line materialization, annotation placement, folding, padding) and the
top-level assembly.

Machine integers (`usize`) are modelled as `Nat`.  Every `usize`
subtraction and every indexed access that can panic in the source is
modelled with an explicit bounds check returning `none`, so a `none`
result of a function below corresponds exactly to a panic of the source
(debug mode subtraction overflow, or an out-of-range `splice`).
-/

namespace AnnSnip

/-- Severity of an annotation, from the `snippet` module's `AnnotationType`. -/
inductive AnnotationType where
  | Error
  | Warning
deriving DecidableEq, Repr

/-- Modelled from the spec: the `snippet` module is not part of the given
source; per the data model an annotation carries a severity, an optional
diagnostic code (`id`), an optional label, and an optional byte range
`(start, end)` into the concatenated source text. -/
structure Annotation where
  label : Option String
  id : Option String
  annotation_type : AnnotationType
  range : Option Nat × Option Nat
deriving DecidableEq, Repr

/-- Modelled from the spec: the slice carried by a snippet holds the source
text of the excerpt, its starting line number, and an optional origin
identifier (file path). -/
structure Slice where
  source : String
  line_start : Nat
  origin : Option String
deriving DecidableEq, Repr

/-- Modelled from the spec: a snippet owns a slice, an ordered collection of
annotations, and optional indices designating the "title" and "main"
annotations. -/
structure Snippet where
  slice : Slice
  annotations : List Annotation
  main_annotation_pos : Option Nat
  title_annotation_pos : Option Nat
deriving DecidableEq, Repr

/-- Inline margin mark of a source line (`DisplayMark` in the source). -/
inductive DisplayMark where
  | AnnotationThrough
  | AnnotationStart
deriving DecidableEq, Repr

/-- Kind tag of an annotation caption row (`DisplayAnnotationType`). -/
inductive DisplayAnnotationType where
  | Error
  | Warning
  | MultilineStart
  | MultilineEnd
deriving DecidableEq, Repr

/-- One unit of rendered output (`DisplayLine` in the source). -/
inductive DisplayLine where
  | RawLine (text : String)
  | EmptySourceLine
  | SourceLine (lineno : Nat) (inline_marks : List DisplayMark) (content : String)
  | AnnotationLine (inline_marks : List DisplayMark) (range : Nat × Nat)
      (label : String) (annotation_type : DisplayAnnotationType)
  | FoldLine
deriving DecidableEq, Repr

/-- The final display list (`DisplayList` in the source). -/
structure DisplayList where
  body : List DisplayLine
deriving DecidableEq, Repr

/-- The conversion `impl From<AnnotationType> for DisplayAnnotationType`. -/
def display_from : AnnotationType → DisplayAnnotationType
  | AnnotationType.Error => DisplayAnnotationType.Error
  | AnnotationType.Warning => DisplayAnnotationType.Warning

/-- The severity string chosen by `format_header`. -/
def ann_type_str : AnnotationType → String
  | AnnotationType.Error => "error"
  | AnnotationType.Warning => "warning"

/-- Header formatter `format_header`: up to two `RawLine`s derived from the title and main
annotations (`src/display_list.rs` lines 9-43).  `Vec::get` is total
(`List.get?`), so an out-of-bounds index simply yields no line. -/
def format_header (snippet : Snippet) : List DisplayLine :=
  let title_ann :=
    match snippet.title_annotation_pos with
    | some pos => snippet.annotations.get? pos
    | none => none
  let h1 : List DisplayLine :=
    match title_ann with
    | some a =>
        [DisplayLine.RawLine
          (ann_type_str a.annotation_type ++ "[" ++ a.id.getD "E0000" ++ "]: "
            ++ a.label.getD "")]
    | none => []
  let main_ann :=
    match snippet.main_annotation_pos with
    | some pos => snippet.annotations.get? pos
    | none => none
  let h2 : List DisplayLine :=
    match main_ann with
    | some _ =>
        [DisplayLine.RawLine ("  --> " ++ snippet.slice.origin.getD "" ++ ":52:1")]
    | none => []
  h1 ++ h2

/-- Split a character list at every newline, keeping every (possibly empty)
segment; `split_nl cs` always returns one more segment than the number of
newlines in `cs`. -/
def split_nl : List Char → List (List Char)
  | [] => [[]]
  | c :: cs =>
    match split_nl cs with
    | [] => [[]]
    | l :: ls => if c = '\n' then [] :: l :: ls else (c :: l) :: ls

/-- Remove one trailing carriage return, as Rust's `str::lines` does for a
segment that was terminated by a newline. -/
def strip_cr (cs : List Char) : List Char :=
  if cs.getLast? = some '\x0d' then cs.dropLast else cs

/-- Keep all segments except a final empty one (the final line ending is
optional in Rust's `str::lines`); every segment that was followed by a
newline loses a trailing carriage return. -/
def rust_lines_aux : List (List Char) → List (List Char)
  | [] => []
  | [last] => if last = [] then [] else [last]
  | p :: rest => strip_cr p :: rust_lines_aux rest

/-- Rust's `str::lines` over the slice source. -/
def rust_lines (s : String) : List String :=
  (rust_lines_aux (split_nl s.data)).map (fun cs => String.mk cs)

/-- Line materialization (`format_body`, first loop): one `SourceLine` per
source line, line numbers sequential from the slice's `line_start`. -/
def mk_body : List String → Nat → List DisplayLine
  | [], _ => []
  | l :: rest, n => DisplayLine.SourceLine n [] l :: mk_body rest (n + 1)

/-- Line materialization (`format_body`, first loop): the half-open offset
range of each line; a line of length `len` occupies `(c, c + len + 1)` and
the next line starts at `c + len + 2`. -/
def mk_ranges : List String → Nat → List (Nat × Nat)
  | [], _ => []
  | l :: rest, c =>
      (c, c + (l.length + 1)) :: mk_ranges rest (c + (l.length + 1) + 1)

/-- Growing output plus the running count of inserted annotation lines
(`annotation_line_count` in the source). -/
structure PlaceState where
  body : List DisplayLine
  alc : Nat
deriving DecidableEq, Repr

/-- Rust's `Vec::insert` at an index that is always `≤` the length here; inserting
at the length appends. -/
def insert_at : Nat → α → List α → List α
  | 0, a, l => a :: l
  | _ + 1, _, [] => []
  | n + 1, a, b :: l => b :: insert_at n a l

/-- The effect of `inline_marks.push(m)` on one display line: appends the mark when the
line is a `SourceLine` and leaves any other entry unchanged, as the
source's `match body[body_idx]` arm does. -/
def mark_line (m : DisplayMark) : DisplayLine → DisplayLine
  | DisplayLine.SourceLine n marks c => DisplayLine.SourceLine n (marks ++ [m]) c
  | other => other

/-- Apply `mark_line` to the entry at position `i` of the body (the position
is always in bounds when called by the engine). -/
def push_mark (m : DisplayMark) : Nat → List DisplayLine → List DisplayLine
  | _, [] => []
  | 0, d :: rest => mark_line m d :: rest
  | n + 1, d :: rest => d :: push_mark m n rest

/-- The `drain_filter` closure body for one annotation against the line with
offsets `(ls, le)` at line index `idx` (`src/display_list.rs` lines 67-153).
Returns the updated state and whether the annotation is removed from the
pending set. `none` models the debug-mode panic of `end - line_start` when
`end < line_start` in the fully-contained arm (the only unguarded `usize`
subtraction of the closure). -/
def place_one (ls le idx : Nat) (st : PlaceState) (a : Annotation) :
    Option (PlaceState × Bool) :=
  let body_idx := idx + st.alc
  match a.range with
  | (some s, oe) =>
    if s > le then some (st, false)
    else
      match oe with
      | some e =>
        if s ≥ ls ∧ e ≤ le then
          if ls ≤ e then
            some ({ body := insert_at (body_idx + 1)
                      (DisplayLine.AnnotationLine [] (s - ls, e - ls)
                        (a.label.getD "") (display_from a.annotation_type)) st.body,
                    alc := st.alc + 1 }, true)
          else none
        else if s ≥ ls ∧ s ≤ le ∧ e > le then
          if s - ls = 0 then
            some ({ st with
                    body := push_mark DisplayMark.AnnotationStart body_idx st.body },
                  false)
          else
            some ({ body := insert_at (body_idx + 1)
                      (DisplayLine.AnnotationLine [DisplayMark.AnnotationThrough]
                        (s - ls, s - ls + 1) (a.label.getD "")
                        DisplayAnnotationType.MultilineStart) st.body,
                    alc := st.alc + 1 }, false)
        else if s < ls ∧ e > le then
          some ({ st with
                  body := push_mark DisplayMark.AnnotationThrough body_idx st.body },
                false)
        else if s < ls ∧ e ≥ ls ∧ e ≤ le then
          some ({ body := insert_at (body_idx + 1)
                    (DisplayLine.AnnotationLine [DisplayMark.AnnotationThrough]
                      (e - ls, e - ls + 1) (a.label.getD "")
                      DisplayAnnotationType.MultilineEnd)
                    (push_mark DisplayMark.AnnotationThrough body_idx st.body),
                  alc := st.alc + 1 }, true)
        else some (st, false)
      | none => some (st, false)
  | (none, _) => some (st, false)

/-- Rust's `Vec::drain_filter` over the pending annotations for one line: visits the
annotations in order threading the mutable state, returns the kept
annotations and the final state. -/
def drain_place (ls le idx : Nat) :
    List Annotation → PlaceState → Option (List Annotation × PlaceState)
  | [], st => some ([], st)
  | a :: rest, st =>
    match place_one ls le idx st a with
    | none => none
    | some (st1, removed) =>
      match drain_place ls le idx rest st1 with
      | none => none
      | some (keep, st2) =>
          some ((if removed then keep else a :: keep), st2)

/-- The placement loop (`for idx in 0..body.len()`): the range is evaluated
once, so `idx` walks exactly the materialized line indices while the body
grows. -/
def place_lines :
    List (Nat × Nat) → Nat → List Annotation → PlaceState →
      Option (List Annotation × PlaceState)
  | [], _, anns, st => some (anns, st)
  | (ls, le) :: rest, idx, anns, st =>
    match drain_place ls le idx anns st with
    | none => none
    | some (anns1, st1) => place_lines rest (idx + 1) anns1 st1

/-- Whether a display line is an `AnnotationLine` (the discriminant tested by
the fold pass). -/
def is_al : DisplayLine → Bool
  | DisplayLine.AnnotationLine .. => true
  | _ => false

/-- The splice step of the fold pass: collapse the window
`fold_start..fold_end` into one `FoldLine` and move `idx` back by
`fold_len - 1` then forward by one.  Each `if ... else none` mirrors, in
evaluation order, a `usize` subtraction or `Vec::splice` bound that panics
in the source when violated (in release mode the wrapped subtraction makes
the `splice` range invalid, which panics as well). -/
def fold_splice (body : List DisplayLine) (counter idx : Nat) :
    Option (List DisplayLine × Nat) :=
  if counter ≤ idx then
    let fold_start := idx - counter + 5
    if 2 ≤ idx then
      let fold_end := idx - 2
      if fold_start ≤ fold_end then
        let fold_len := fold_end - fold_start
        if fold_end ≤ body.length then
          if 1 ≤ fold_len then
            if fold_len - 1 ≤ idx then
              some (body.take fold_start ++ DisplayLine.FoldLine :: body.drop fold_end,
                idx - (fold_len - 1) + 1)
            else none
          else none
        else none
      else none
    else none
  else none

/-- The fold pass (`src/display_list.rs` lines 157-178), one iteration of the
`while idx < body.len()` loop per unit of fuel.  The loop measure
`body.len() - idx` decreases by exactly one per iteration (a splice removes
`fold_len - 1` entries and moves `idx` back by the same amount), so the pass
is run with initial fuel `body.length`.  The counter update at an
annotation line is the source's literal `no_annotation_lines_counter += 0`. -/
def fold_go : Nat → List DisplayLine → Nat → Nat → Option (List DisplayLine)
  | 0, body, _, _ => some body
  | f + 1, body, counter, idx =>
    match body[idx]? with
    | none => some body
    | some d =>
      if is_al d then
        if 10 < counter then
          match fold_splice body counter idx with
          | none => none
          | some (body2, idx2) => fold_go f body2 (counter + 0) idx2
        else fold_go f body (counter + 0) (idx + 1)
      else fold_go f body (counter + 1) (idx + 1)

/-- The complete fold pass over an assembled body. -/
def fold_pass (body : List DisplayLine) : Option (List DisplayLine) :=
  fold_go body.length body 0 0

/-- The body layout engine `format_body` (`src/display_list.rs` lines 45-183): materialize the
lines, place every annotation, fold long unannotated runs, then bracket the
result with one `EmptySourceLine` on each side. -/
def format_body (snippet : Snippet) : Option (List DisplayLine) :=
  let ls := rust_lines snippet.slice.source
  let body0 := mk_body ls snippet.slice.line_start
  let ranges := mk_ranges ls 0
  match place_lines ranges 0 snippet.annotations { body := body0, alc := 0 } with
  | none => none
  | some (_, st) =>
    match fold_pass st.body with
    | none => none
    | some folded =>
        some (DisplayLine.EmptySourceLine :: (folded ++ [DisplayLine.EmptySourceLine]))

/-- The conversion `impl From<Snippet> for DisplayList`: header followed by body. -/
def display_list_from (snippet : Snippet) : Option DisplayList :=
  match format_body snippet with
  | none => none
  | some b => some { body := format_header snippet ++ b }

/-- Whether a display line is a `SourceLine`. -/
def is_src : DisplayLine → Bool
  | DisplayLine.SourceLine .. => true
  | _ => false

/-- Whether a display line is an `AnnotationLine` or a `FoldLine`. -/
def is_al_or_fold : DisplayLine → Bool
  | DisplayLine.AnnotationLine .. => true
  | DisplayLine.FoldLine => true
  | _ => false

/-- The body-edge invariant claimed by the spec: no `AnnotationLine` or
`FoldLine` entry before the first `SourceLine` or after the last
`SourceLine`. -/
def edges_clear (out : List DisplayLine) : Bool :=
  ((out.takeWhile (fun d => ! is_src d)).all (fun d => ! is_al_or_fold d)) &&
  ((out.reverse.takeWhile (fun d => ! is_src d)).all (fun d => ! is_al_or_fold d))

/-! Concrete inputs used by the claims -/

/-- A source of `k` lines reading `aaaaa`; line `i` (zero-based) occupies the
offset range `(7 i, 7 i + 6)` under the engine's offset arithmetic. -/
def src_a (k : Nat) : String :=
  String.intercalate "\n" (List.replicate k "aaaaa") ++ "\n"

/-- A fully-contained single-line annotation covering the first character of
zero-based line `i` of `src_a`. -/
def ann_at (i : Nat) : Annotation :=
  { label := none, id := none, annotation_type := AnnotationType.Error,
    range := (some (7 * i), some (7 * i + 1)) }

/-- A snippet over `src_a k` with the given annotations, starting line 1. -/
def snip_a (k : Nat) (anns : List Annotation) : Snippet :=
  { slice := { source := src_a k, line_start := 1, origin := none },
    annotations := anns, main_annotation_pos := none,
    title_annotation_pos := none }

/-- Shorthand for an unannotated `aaaaa` source line. -/
def sla (n : Nat) : DisplayLine := DisplayLine.SourceLine n [] "aaaaa"

/-- Shorthand for the caption inserted for `ann_at`. -/
def ala : DisplayLine :=
  DisplayLine.AnnotationLine [] (0, 1) "" DisplayAnnotationType.Error

/-- An annotation covering the first character of the first line. -/
def ann_first : Annotation :=
  { label := none, id := none, annotation_type := AnnotationType.Error,
    range := (some 0, some 1) }

/-- A one-line snippet whose single annotation covers the first character of
its last (and only) source line. -/
def snip_abc : Snippet :=
  { slice := { source := "abc", line_start := 1, origin := none },
    annotations := [ann_first],
    main_annotation_pos := none,
    title_annotation_pos := none }

/-- An `Error` annotation with no label, no code and no range. -/
def ann_plain : Annotation :=
  { label := none, id := none, annotation_type := AnnotationType.Error,
    range := (none, none) }

/-- A snippet whose title annotation has no label and no code. -/
def snip_title : Snippet :=
  { slice := { source := "", line_start := 1, origin := none },
    annotations := [ann_plain],
    main_annotation_pos := none,
    title_annotation_pos := some 0 }

/-- A snippet with no annotations but both indices set to 3. -/
def snip_oob : Snippet :=
  { slice := { source := "ab", line_start := 1, origin := none },
    annotations := [], main_annotation_pos := some 3,
    title_annotation_pos := some 3 }

/-- The total offset footprint of a list of lines under the engine's
arithmetic: each line advances `current_index` by its length plus two. -/
def cost : List String → Nat
  | [] => 0
  | l :: rest => l.length + 2 + cost rest

/-- The shape taken by a run of source lines fully spanned by a pending
multi-line annotation: each carries one `AnnotationThrough` inline mark. -/
def mk_body_thru : List String → Nat → List DisplayLine
  | [], _ => []
  | l :: rest, n =>
      DisplayLine.SourceLine n [DisplayMark.AnnotationThrough] l ::
        mk_body_thru rest (n + 1)

/-- The single-line annotation of the spec's placement test: columns 1-2 of
line 1, labelled `oops`. -/
def ann_oops : Annotation :=
  { label := some "oops", id := none, annotation_type := AnnotationType.Error,
    range := (some 1, some 2) }

/-- The spec's single-line placement test snippet: source `abc\ndef\n` with
`ann_oops`. -/
def snip_oops : Snippet :=
  { slice := { source := "abc\ndef\n", line_start := 1, origin := none },
    annotations := [ann_oops],
    main_annotation_pos := none,
    title_annotation_pos := none }

/-- A multi-line annotation starting at column 0 of line 1 and ending midway
into line 2 of `abc\ndef\n` (offsets 0 to 6). -/
def ann_span : Annotation :=
  { label := none, id := none, annotation_type := AnnotationType.Warning,
    range := (some 0, some 6) }

/-- The spec's multi-line bracketing test snippet. -/
def snip_span : Snippet :=
  { slice := { source := "abc\ndef\n", line_start := 1, origin := none },
    annotations := [ann_span],
    main_annotation_pos := none,
    title_annotation_pos := none }

end AnnSnip

namespace AnnSnip

set_option maxRecDepth 10000

/-! Structural lemmas about the engine's helpers -/

theorem mk_body_length (ls : List String) (n : Nat) :
    (mk_body ls n).length = ls.length := by
  induction ls generalizing n with
  | nil => rfl
  | cons l rest ih => simp [mk_body, ih]

theorem mk_body_append (l1 l2 : List String) (n : Nat) :
    mk_body (l1 ++ l2) n = mk_body l1 n ++ mk_body l2 (n + l1.length) := by
  induction l1 generalizing n with
  | nil => simp [mk_body]
  | cons l rest ih =>
      simp only [List.cons_append, mk_body, List.length_cons, List.append_eq]
      rw [ih]
      have hn : n + 1 + rest.length = n + (rest.length + 1) := by omega
      rw [hn]

theorem mk_ranges_append (l1 l2 : List String) (c : Nat) :
    mk_ranges (l1 ++ l2) c = mk_ranges l1 c ++ mk_ranges l2 (c + cost l1) := by
  induction l1 generalizing c with
  | nil => simp [mk_ranges, cost]
  | cons l rest ih =>
      simp only [List.cons_append, mk_ranges, cost, List.append_eq]
      rw [ih]
      have hn : c + (l.length + 1) + 1 + cost rest = c + (l.length + 2 + cost rest) := by
        omega
      rw [hn]

theorem mk_ranges_end_lt (ls : List String) (c : Nat) :
    ∀ r ∈ mk_ranges ls c, r.2 < c + cost ls := by
  induction ls generalizing c with
  | nil => intro r hr; cases hr
  | cons l rest ih =>
      intro r hr
      cases hr with
      | head => simp [cost]; omega
      | tail _ h =>
          have h2 := ih (c + (l.length + 1) + 1) r h
          simp only [cost]
          omega

theorem mk_ranges_start_ge (ls : List String) (c : Nat) :
    ∀ r ∈ mk_ranges ls c, c ≤ r.1 := by
  induction ls generalizing c with
  | nil => intro r hr; cases hr
  | cons l rest ih =>
      intro r hr
      cases hr with
      | head => simp
      | tail _ h =>
          have h2 := ih (c + (l.length + 1) + 1) r h
          omega

theorem mk_ranges_length (ls : List String) (c : Nat) :
    (mk_ranges ls c).length = ls.length := by
  induction ls generalizing c with
  | nil => rfl
  | cons l rest ih => simp [mk_ranges, ih]

theorem insert_at_length_append (l1 l2 : List α) (a : α) :
    insert_at l1.length a (l1 ++ l2) = l1 ++ a :: l2 := by
  induction l1 with
  | nil => rfl
  | cons b t ih => simp [insert_at, ih]

theorem push_mark_length_append (m : DisplayMark) (l1 l2 : List DisplayLine)
    (d : DisplayLine) :
    push_mark m l1.length (l1 ++ d :: l2) = l1 ++ mark_line m d :: l2 := by
  induction l1 with
  | nil => rfl
  | cons b t ih => simp [push_mark, ih]

/-! Placement-pass lemmas -/

theorem place_lines_nil_anns (r : List (Nat × Nat)) (idx : Nat) (st : PlaceState) :
    place_lines r idx [] st = some ([], st) := by
  induction r generalizing idx st with
  | nil => rfl
  | cons p rest ih =>
      cases p with
      | mk ls le => simp [place_lines, drain_place, ih]

theorem place_lines_append (r1 r2 : List (Nat × Nat)) (idx : Nat)
    (anns : List Annotation) (st : PlaceState) :
    place_lines (r1 ++ r2) idx anns st =
      (place_lines r1 idx anns st).bind
        (fun p => place_lines r2 (idx + r1.length) p.1 p.2) := by
  induction r1 generalizing idx anns st with
  | nil => simp [place_lines]
  | cons q rest ih =>
      cases q with
      | mk ls le =>
          simp only [List.cons_append, place_lines]
          cases drain_place ls le idx anns st with
          | none => rfl
          | some res =>
              cases res with
              | mk a1 st1 =>
                  simp only [Option.bind_some, List.length_cons, List.append_eq]
                  rw [ih]
                  have hn : idx + 1 + rest.length = idx + (rest.length + 1) := by omega
                  rw [hn]

theorem place_one_far (ls le idx : Nat) (st : PlaceState) (a : Annotation)
    (s : Nat) (oe : Option Nat) (hr : a.range = (some s, oe)) (h : s > le) :
    place_one ls le idx st a = some (st, false) := by
  unfold place_one
  rw [hr]
  simp [h]

theorem place_lines_skip (pre : List String) (a : Annotation) (s : Nat)
    (oe : Option Nat) (hr : a.range = (some s, oe)) :
    ∀ (c idx : Nat) (st : PlaceState), c + cost pre ≤ s →
      place_lines (mk_ranges pre c) idx [a] st = some ([a], st) := by
  induction pre with
  | nil => intro c idx st hs; rfl
  | cons l rest ih =>
      intro c idx st hs
      simp only [cost] at hs
      have h1 : place_one c (c + (l.length + 1)) idx st a = some (st, false) :=
        place_one_far _ _ _ _ _ _ _ hr (by omega)
      simp only [mk_ranges, place_lines, drain_place, h1]
      exact ih (c + (l.length + 1) + 1) (idx + 1) st (by omega)

theorem place_one_contained (ls le idx : Nat) (st : PlaceState) (a : Annotation)
    (s e : Nat) (hr : a.range = (some s, some e))
    (h1 : ls ≤ s) (h2 : s ≤ le) (h3 : ls ≤ e) (h4 : e ≤ le) :
    place_one ls le idx st a =
      some ({ body := insert_at (idx + st.alc + 1)
                (DisplayLine.AnnotationLine [] (s - ls, e - ls)
                  (a.label.getD "") (display_from a.annotation_type)) st.body,
              alc := st.alc + 1 }, true) := by
  unfold place_one
  rw [hr]
  have hng : ¬ s > le := by omega
  simp [hng, h1, h3, h4]

theorem place_one_start_col0 (ls le idx : Nat) (st : PlaceState) (a : Annotation)
    (s e : Nat) (hr : a.range = (some s, some e))
    (hs : s = ls) (h2 : s ≤ le) (h3 : e > le) :
    place_one ls le idx st a =
      some ({ st with
        body := push_mark DisplayMark.AnnotationStart (idx + st.alc) st.body }, false) := by
  unfold place_one
  rw [hr]
  have hng : ¬ s > le := by omega
  have hnc2 : ¬ (s ≥ ls ∧ e ≤ le) := by omega
  have hc3 : s ≥ ls ∧ s ≤ le ∧ e > le := by omega
  have hz : s - ls = 0 := by omega
  simp [hng, hnc2, hc3, hz]

theorem place_one_through (ls le idx : Nat) (st : PlaceState) (a : Annotation)
    (s e : Nat) (hr : a.range = (some s, some e))
    (hs : s < ls) (hle : ls ≤ le) (h3 : e > le) :
    place_one ls le idx st a =
      some ({ st with
        body := push_mark DisplayMark.AnnotationThrough (idx + st.alc) st.body }, false) := by
  unfold place_one
  rw [hr]
  have hng : ¬ s > le := by omega
  have hnc2 : ¬ (s ≥ ls ∧ e ≤ le) := by omega
  have hnc3 : ¬ (s ≥ ls ∧ s ≤ le ∧ e > le) := by omega
  have hc4 : s < ls ∧ e > le := by omega
  simp [hng, hnc2, hnc3, hc4]

theorem place_one_end (ls le idx : Nat) (st : PlaceState) (a : Annotation)
    (s e : Nat) (hr : a.range = (some s, some e))
    (hs : s < ls) (he1 : ls ≤ e) (he2 : e ≤ le) :
    place_one ls le idx st a =
      some (PlaceState.mk
        (insert_at (idx + st.alc + 1)
          (DisplayLine.AnnotationLine [DisplayMark.AnnotationThrough]
            (e - ls, e - ls + 1) (a.label.getD "")
            DisplayAnnotationType.MultilineEnd)
          (push_mark DisplayMark.AnnotationThrough (idx + st.alc) st.body))
        (st.alc + 1), true) := by
  unfold place_one
  rw [hr]
  have hng : ¬ s > le := by omega
  have hslls : ¬ ls ≤ s := by omega
  have hlt : ¬ le < e := by omega
  simp [hng, hslls, hlt, hs, he1, he2]

theorem mk_body_thru_length (ls : List String) (n : Nat) :
    (mk_body_thru ls n).length = ls.length := by
  induction ls generalizing n with
  | nil => rfl
  | cons l rest ih => simp [mk_body_thru, ih]

theorem mk_body_thru_no_al (ls : List String) (n : Nat) :
    ∀ d ∈ mk_body_thru ls n, is_al d = false := by
  induction ls generalizing n with
  | nil => intro d hd; cases hd
  | cons l rest ih =>
      intro d hd
      cases hd with
      | head => rfl
      | tail _ h => exact ih (n + 1) d h

theorem place_lines_through (mid : List String) (a : Annotation) (s e : Nat)
    (hr : a.range = (some s, some e)) :
    ∀ (cm idx alc : Nat) (B1 B2 : List DisplayLine) (nm : Nat),
      B1.length = idx + alc → s < cm → cost mid + cm ≤ e →
      place_lines (mk_ranges mid cm) idx [a]
        (PlaceState.mk (B1 ++ (mk_body mid nm ++ B2)) alc) =
      some ([a], PlaceState.mk (B1 ++ (mk_body_thru mid nm ++ B2)) alc) := by
  induction mid with
  | nil => intro cm idx alc B1 B2 nm _ _ _; simp [mk_ranges, place_lines, mk_body, mk_body_thru]
  | cons l rest ih =>
      intro cm idx alc B1 B2 nm hB1 hscm hcost
      simp only [cost] at hcost
      have hone := place_one_through cm (cm + (l.length + 1)) idx
        (PlaceState.mk (B1 ++ (mk_body (l :: rest) nm ++ B2)) alc) a s e hr
        hscm (by omega) (by omega)
      simp only [mk_ranges, place_lines, drain_place, hone, Bool.false_eq_true,
        if_false]
      have hpush : push_mark DisplayMark.AnnotationThrough (idx + alc)
          (B1 ++ (mk_body (l :: rest) nm ++ B2)) =
          (B1 ++ [DisplayLine.SourceLine nm [DisplayMark.AnnotationThrough] l]) ++
            (mk_body rest (nm + 1) ++ B2) := by
        have hshape : B1 ++ (mk_body (l :: rest) nm ++ B2) =
            B1 ++ DisplayLine.SourceLine nm [] l :: (mk_body rest (nm + 1) ++ B2) := by
          simp [mk_body]
        rw [hshape, ← hB1, push_mark_length_append]
        simp [mark_line]
      rw [hpush]
      rw [ih (cm + (l.length + 1) + 1) (idx + 1) alc
        (B1 ++ [DisplayLine.SourceLine nm [DisplayMark.AnnotationThrough] l])
        B2 (nm + 1) (by simp; omega) (by omega) (by omega)]
      simp [mk_body_thru]

/-! Fold-pass lemmas -/

theorem mk_body_no_al (ls : List String) (n : Nat) :
    ∀ d ∈ mk_body ls n, is_al d = false := by
  induction ls generalizing n with
  | nil => intro d hd; cases hd
  | cons l rest ih =>
      intro d hd
      cases hd with
      | head => rfl
      | tail _ h => exact ih (n + 1) d h

theorem fold_go_step_none (f : Nat) (body : List DisplayLine) (c idx : Nat)
    (hget : body[idx]? = none) : fold_go (f + 1) body c idx = some body := by
  simp only [fold_go, hget]

theorem fold_go_step_src (f : Nat) (body : List DisplayLine) (c idx : Nat)
    (d : DisplayLine) (hget : body[idx]? = some d) (hd : is_al d = false) :
    fold_go (f + 1) body c idx = fold_go f body (c + 1) (idx + 1) := by
  simp only [fold_go, hget, hd, Bool.false_eq_true, if_false]

theorem fold_go_step_al_small (f : Nat) (body : List DisplayLine) (c idx : Nat)
    (d : DisplayLine) (hget : body[idx]? = some d) (hd : is_al d = true)
    (hc : ¬ 10 < c) :
    fold_go (f + 1) body c idx = fold_go f body (c + 0) (idx + 1) := by
  simp only [fold_go, hget, hd, if_true, hc, if_false]

theorem fold_go_step_al_splice (f : Nat) (body : List DisplayLine) (c idx : Nat)
    (d : DisplayLine) (b2 : List DisplayLine) (i2 : Nat)
    (hget : body[idx]? = some d) (hd : is_al d = true) (hc : 10 < c)
    (hsp : fold_splice body c idx = some (b2, i2)) :
    fold_go (f + 1) body c idx = fold_go f b2 (c + 0) i2 := by
  simp only [fold_go, hget, hd, if_true, hc, hsp]

theorem fold_go_step_al_stuck (f : Nat) (body : List DisplayLine) (c idx : Nat)
    (d : DisplayLine) (hget : body[idx]? = some d) (hd : is_al d = true)
    (hc : 10 < c) (hsp : fold_splice body c idx = none) :
    fold_go (f + 1) body c idx = none := by
  simp only [fold_go, hget, hd, if_true, hc, hsp]

theorem fold_go_no_al (f : Nat) :
    ∀ (body : List DisplayLine) (c idx : Nat), body.length = idx + f →
      (∀ d ∈ body.drop idx, is_al d = false) →
      fold_go f body c idx = some body := by
  induction f with
  | zero => intro body c idx _ _; rfl
  | succ f ih =>
      intro body c idx hlen hal
      have hidx : idx < body.length := by omega
      have hget : body[idx]? = some body[idx] := List.getElem?_eq_getElem hidx
      have hdrop : body.drop idx = body[idx] :: body.drop (idx + 1) :=
        List.drop_eq_getElem_cons hidx
      have hal0 : is_al body[idx] = false := by
        apply hal
        rw [hdrop]
        exact List.mem_cons_self _ _
      simp only [fold_go, hget, hal0, Bool.false_eq_true, if_false]
      exact ih body (c + 1) (idx + 1) (by omega)
        (fun d hd => hal d (by rw [hdrop]; exact List.mem_cons_of_mem _ hd))

theorem fold_go_walk (k : Nat) :
    ∀ (f : Nat) (body : List DisplayLine) (c idx : Nat),
      body.length = idx + f → k ≤ f →
      (∀ d ∈ (body.drop idx).take k, is_al d = false) →
      fold_go f body c idx = fold_go (f - k) body (c + k) (idx + k) := by
  induction k with
  | zero => intro f body c idx _ _ _; simp
  | succ k ih =>
      intro f body c idx hlen hk hal
      cases f with
      | zero => omega
      | succ f =>
          have hidx : idx < body.length := by omega
          have hget : body[idx]? = some body[idx] := List.getElem?_eq_getElem hidx
          have hdrop : body.drop idx = body[idx] :: body.drop (idx + 1) :=
            List.drop_eq_getElem_cons hidx
          have hal0 : is_al body[idx] = false := by
            apply hal
            rw [hdrop, List.take_succ_cons]
            exact List.mem_cons_self _ _
          simp only [fold_go, hget, hal0, Bool.false_eq_true, if_false]
          rw [ih f body (c + 1) (idx + 1) (by omega) (by omega) ?_]
          · have e1 : f - k = f + 1 - (k + 1) := by omega
            have e2 : c + 1 + k = c + (k + 1) := by omega
            have e3 : idx + 1 + k = idx + (k + 1) := by omega
            rw [e1, e2, e3]
          · intro d hd
            apply hal
            rw [hdrop, List.take_succ_cons]
            exact List.mem_cons_of_mem _ hd

theorem fold_splice_subset (body : List DisplayLine) (c idx : Nat)
    (b2 : List DisplayLine) (i2 : Nat)
    (h : fold_splice body c idx = some (b2, i2)) :
    ∀ d ∈ b2, d ∈ body ∨ d = DisplayLine.FoldLine := by
  simp only [fold_splice] at h
  split_ifs at h
  cases h
  intro d hd
  rcases List.mem_append.mp hd with hh | hh
  · exact Or.inl (List.mem_of_mem_take hh)
  · cases hh with
    | head => exact Or.inr rfl
    | tail _ ht => exact Or.inl (List.mem_of_mem_drop ht)

theorem fold_splice_head (body : List DisplayLine) (c idx : Nat)
    (b2 : List DisplayLine) (i2 : Nat)
    (h : fold_splice body c idx = some (b2, i2)) (x : DisplayLine)
    (t : List DisplayLine) (hb : body = x :: t) :
    b2.head? = some x := by
  simp only [fold_splice] at h
  split_ifs at h
  cases h
  subst hb
  simp [List.take_succ_cons]

theorem fold_go_head (f : Nat) :
    ∀ (body : List DisplayLine) (c idx : Nat) (out : List DisplayLine),
      fold_go f body c idx = some out → out.head? = body.head? := by
  induction f with
  | zero => intro body c idx out h; cases h; rfl
  | succ f ih =>
      intro body c idx out h
      cases hget : body[idx]? with
      | none => rw [fold_go_step_none f body c idx hget] at h; cases h; rfl
      | some d =>
          have hne : body ≠ [] := by
            intro he
            rw [he] at hget
            simp at hget
          by_cases hald : is_al d = true
          · by_cases hc : 10 < c
            · cases hsp : fold_splice body c idx with
              | none => rw [fold_go_step_al_stuck f body c idx d hget hald hc hsp] at h; cases h
              | some pr =>
                  cases pr with
                  | mk b2 i2 =>
                      rw [fold_go_step_al_splice f body c idx d b2 i2 hget hald hc hsp] at h
                      have h2 := ih b2 (c + 0) i2 out h
                      cases hb : body with
                      | nil => exact absurd hb hne
                      | cons x t =>
                          rw [h2, fold_splice_head body c idx b2 i2 hsp x t hb]
                          rfl
            · rw [fold_go_step_al_small f body c idx d hget hald hc] at h
              exact ih body (c + 0) (idx + 1) out h
          · rw [fold_go_step_src f body c idx d hget (by simpa using hald)] at h
            exact ih body (c + 1) (idx + 1) out h

theorem fold_go_mem (f : Nat) :
    ∀ (body : List DisplayLine) (c idx : Nat) (out : List DisplayLine),
      fold_go f body c idx = some out →
      ∀ d ∈ out, d ∈ body ∨ d = DisplayLine.FoldLine := by
  induction f with
  | zero => intro body c idx out h; cases h; intro d hd; exact Or.inl hd
  | succ f ih =>
      intro body c idx out h
      cases hget : body[idx]? with
      | none =>
          rw [fold_go_step_none f body c idx hget] at h
          cases h
          intro d hd
          exact Or.inl hd
      | some d0 =>
          by_cases hald : is_al d0 = true
          · by_cases hc : 10 < c
            · cases hsp : fold_splice body c idx with
              | none => rw [fold_go_step_al_stuck f body c idx d0 hget hald hc hsp] at h; cases h
              | some pr =>
                  cases pr with
                  | mk b2 i2 =>
                      rw [fold_go_step_al_splice f body c idx d0 b2 i2 hget hald hc hsp] at h
                      intro d hd
                      rcases ih b2 (c + 0) i2 out h d hd with h2 | h2
                      · exact fold_splice_subset body c idx b2 i2 hsp d h2
                      · exact Or.inr h2
            · rw [fold_go_step_al_small f body c idx d0 hget hald hc] at h
              exact ih body (c + 0) (idx + 1) out h
          · rw [fold_go_step_src f body c idx d0 hget (by simpa using hald)] at h
            exact ih body (c + 1) (idx + 1) out h

theorem fold_pass_single_al (P Q : List DisplayLine) (sl al : DisplayLine)
    (hP : ∀ d ∈ P, is_al d = false) (hsl : is_al sl = false)
    (hal : is_al al = true) (hQ : ∀ d ∈ Q, is_al d = false) :
    ∃ u, fold_pass (P ++ sl :: al :: Q) = some (u ++ sl :: al :: Q) := by
  have hlen : (P ++ sl :: al :: Q).length = P.length + 2 + Q.length := by
    simp
    omega
  have htake : ((P ++ sl :: al :: Q).drop 0).take (P.length + 1) = P ++ [sl] := by
    rw [List.drop_zero]
    have h1 : (P ++ sl :: al :: Q).take (P.length + 1) = P ++ (sl :: al :: Q).take 1 :=
      List.take_append 1
    simpa using h1
  have hmemw : ∀ d ∈ ((P ++ sl :: al :: Q).drop 0).take (P.length + 1),
      is_al d = false := by
    rw [htake]
    intro d hd
    rcases List.mem_append.mp hd with h | h
    · exact hP d h
    · cases h with
      | head => exact hsl
      | tail _ hh => cases hh
  have hwalk := fold_go_walk (P.length + 1) ((P ++ sl :: al :: Q).length)
    (P ++ sl :: al :: Q) 0 0 (by omega) (by omega) hmemw
  have hget : (P ++ sl :: al :: Q)[P.length + 1]? = some al := by
    have hshape : P ++ sl :: al :: Q = (P ++ [sl]) ++ al :: Q := by simp
    rw [hshape]
    have hl1 : (P ++ [sl]).length = P.length + 1 := by simp
    rw [List.getElem?_append_right (by omega)]
    rw [hl1]
    simp
  have hdrop2 : (P ++ sl :: al :: Q).drop (P.length + 2) = Q := by
    have hshape : P ++ sl :: al :: Q = (P ++ [sl, al]) ++ Q := by simp
    rw [hshape]
    have hl2 : (P ++ [sl, al]).length = P.length + 2 := by simp
    rw [← hl2, List.drop_left]
  unfold fold_pass
  rw [hwalk]
  have e0 : 0 + (P.length + 1) = P.length + 1 := by omega
  have e1 : (P ++ sl :: al :: Q).length - (P.length + 1) = Q.length + 1 := by omega
  rw [e0, e1]
  by_cases hc : 10 < P.length + 1
  · -- the counter exceeds the threshold: one splice happens
    have e2 : P.length + 1 - (P.length + 1) + 5 = 5 := by omega
    have e3 : P.length + 1 - 2 = P.length - 1 := by omega
    have hsplice : fold_splice (P ++ sl :: al :: Q) (P.length + 1) (P.length + 1) =
        some ((P ++ sl :: al :: Q).take 5 ++
          DisplayLine.FoldLine :: (P ++ sl :: al :: Q).drop (P.length - 1), 9) := by
      simp only [fold_splice]
      rw [e2, e3]
      rw [if_pos (by omega : P.length + 1 ≤ P.length + 1)]
      rw [if_pos (by omega : 2 ≤ P.length + 1)]
      rw [if_pos (by omega : 5 ≤ P.length - 1)]
      rw [if_pos (by omega : P.length - 1 ≤ (P ++ sl :: al :: Q).length)]
      rw [if_pos (by omega : 1 ≤ P.length - 1 - 5)]
      rw [if_pos (by omega : P.length - 1 - 5 - 1 ≤ P.length + 1)]
      have e4 : P.length + 1 - (P.length - 1 - 5 - 1) + 1 = 9 := by omega
      rw [e4]
    rw [fold_go_step_al_splice (Q.length) (P ++ sl :: al :: Q) (P.length + 1)
      (P.length + 1) al _ 9 hget hal hc hsplice]
    have htk : (P ++ sl :: al :: Q).take 5 = P.take 5 :=
      List.take_append_of_le_length (by omega)
    have hdr : (P ++ sl :: al :: Q).drop (P.length - 1) =
        P.drop (P.length - 1) ++ sl :: al :: Q :=
      List.drop_append_of_le_length (by omega)
    have hb2 : (P ++ sl :: al :: Q).take 5 ++
        DisplayLine.FoldLine :: (P ++ sl :: al :: Q).drop (P.length - 1) =
        (P.take 5 ++ DisplayLine.FoldLine :: P.drop (P.length - 1)) ++ sl :: al :: Q := by
      rw [htk, hdr]
      simp
    rw [hb2]
    refine ⟨P.take 5 ++ DisplayLine.FoldLine :: P.drop (P.length - 1), ?_⟩
    have hl9 : ((P.take 5 ++ DisplayLine.FoldLine :: P.drop (P.length - 1)) ++
        [sl, al]).length = 9 := by
      simp
      omega
    have hshape9 : (P.take 5 ++ DisplayLine.FoldLine :: P.drop (P.length - 1)) ++
        sl :: al :: Q =
        ((P.take 5 ++ DisplayLine.FoldLine :: P.drop (P.length - 1)) ++ [sl, al]) ++ Q := by
      simp
    apply fold_go_no_al
    · rw [hshape9]
      simp
      omega
    · intro d hd
      apply hQ
      have hdq : ((P.take 5 ++ DisplayLine.FoldLine :: P.drop (P.length - 1)) ++
          sl :: al :: Q).drop 9 = Q := by
        rw [hshape9, ← hl9, List.drop_left]
      rw [hdq] at hd
      exact hd
  · -- below the threshold: no fold at all
    rw [fold_go_step_al_small (Q.length) (P ++ sl :: al :: Q) (P.length + 1)
      (P.length + 1) al hget hal hc]
    refine ⟨P, ?_⟩
    apply fold_go_no_al
    · omega
    · intro d hd
      apply hQ
      rw [hdrop2] at hd
      exact hd

theorem place_one_body_cases (ls le idx : Nat) (st st' : PlaceState) (rem : Bool)
    (a : Annotation) (h : place_one ls le idx st a = some (st', rem)) :
    st'.body = st.body ∨
    (∃ m, st'.body = push_mark m (idx + st.alc) st.body) ∨
    (∃ x, is_al x = true ∧ st'.body = insert_at (idx + st.alc + 1) x st.body) ∨
    (∃ m x, is_al x = true ∧
      st'.body = insert_at (idx + st.alc + 1) x (push_mark m (idx + st.alc) st.body)) := by
  unfold place_one at h
  repeat' split at h
  all_goals simp at h
  all_goals obtain ⟨h1, h2⟩ := h
  all_goals subst h1
  · exact Or.inl rfl
  · refine Or.inr (Or.inr (Or.inl ⟨_, ?_, rfl⟩))
    rfl
  · exact Or.inr (Or.inl ⟨_, rfl⟩)
  · refine Or.inr (Or.inr (Or.inl ⟨_, ?_, rfl⟩))
    rfl
  · exact Or.inr (Or.inl ⟨_, rfl⟩)
  · refine Or.inr (Or.inr (Or.inr ⟨_, _, ?_, rfl⟩))
    rfl
  · exact Or.inl rfl
  · exact Or.inl rfl
  · exact Or.inl rfl

theorem insert_at_mem (n : Nat) (x : α) (l : List α) :
    ∀ d ∈ insert_at n x l, d ∈ l ∨ d = x := by
  induction l generalizing n with
  | nil =>
      cases n with
      | zero => intro d hd; cases hd with
        | head => exact Or.inr rfl
        | tail _ hh => cases hh
      | succ n => intro d hd; cases hd
  | cons b t ih =>
      cases n with
      | zero =>
          intro d hd
          cases hd with
          | head => exact Or.inr rfl
          | tail _ hh => exact Or.inl hh
      | succ n =>
          intro d hd
          cases hd with
          | head => exact Or.inl (List.mem_cons_self _ _)
          | tail _ hh =>
              rcases ih n d hh with h1 | h1
              · exact Or.inl (List.mem_cons_of_mem _ h1)
              · exact Or.inr h1

theorem push_mark_nil (m : DisplayMark) (i : Nat) : push_mark m i [] = [] := by
  cases i <;> rfl

theorem push_mark_mem (m : DisplayMark) (i : Nat) (l : List DisplayLine) :
    ∀ d ∈ push_mark m i l, d ∈ l ∨ ∃ d0, d0 ∈ l ∧ d = mark_line m d0 := by
  induction l generalizing i with
  | nil => intro d hd; rw [push_mark_nil] at hd; cases hd
  | cons b t ih =>
      cases i with
      | zero =>
          intro d hd
          cases hd with
          | head => exact Or.inr ⟨b, List.mem_cons_self _ _, rfl⟩
          | tail _ hh => exact Or.inl (List.mem_cons_of_mem _ hh)
      | succ i =>
          intro d hd
          cases hd with
          | head => exact Or.inl (List.mem_cons_self _ _)
          | tail _ hh =>
              rcases ih i d hh with h1 | ⟨d0, hd0, he⟩
              · exact Or.inl (List.mem_cons_of_mem _ h1)
              · exact Or.inr ⟨d0, List.mem_cons_of_mem _ hd0, he⟩

theorem mark_line_ne_empty (m : DisplayMark) (d : DisplayLine)
    (hd : d ≠ DisplayLine.EmptySourceLine) :
    mark_line m d ≠ DisplayLine.EmptySourceLine := by
  cases d <;> simp_all [mark_line]

theorem insert_at_succ_head (n : Nat) (x : α) (l : List α) :
    (insert_at (n + 1) x l).head? = l.head? := by
  cases l <;> rfl

theorem insert_at_succ_ne_nil (n : Nat) (x : α) (l : List α) (h : l ≠ []) :
    insert_at (n + 1) x l ≠ [] := by
  cases l with
  | nil => exact absurd rfl h
  | cons b t => simp [insert_at]

theorem push_mark_ne_nil (m : DisplayMark) (i : Nat) (l : List DisplayLine)
    (h : l ≠ []) : push_mark m i l ≠ [] := by
  cases l with
  | nil => exact absurd rfl h
  | cons b t => cases i <;> simp [push_mark]

theorem is_src_mark_line (m : DisplayMark) (d : DisplayLine) :
    is_src (mark_line m d) = is_src d := by
  cases d <;> rfl

theorem push_mark_head_src (m : DisplayMark) (i : Nat) (l : List DisplayLine)
    (h : ∀ d ∈ l.head?, is_src d = true) :
    ∀ d ∈ (push_mark m i l).head?, is_src d = true := by
  cases l with
  | nil => intro d hd; rw [push_mark_nil] at hd; cases hd
  | cons b t =>
      cases i with
      | zero =>
          intro d hd
          simp [push_mark] at hd
          subst hd
          rw [is_src_mark_line]
          exact h b (by simp)
      | succ i =>
          intro d hd
          simp [push_mark] at hd
          subst hd
          exact h b (by simp)

theorem place_one_preserves (ls le idx : Nat) (st st' : PlaceState) (rem : Bool)
    (a : Annotation) (h : place_one ls le idx st a = some (st', rem)) :
    ((∀ d ∈ st.body.head?, is_src d = true) → ∀ d ∈ st'.body.head?, is_src d = true) ∧
    ((∀ d ∈ st.body, d ≠ DisplayLine.EmptySourceLine) →
      ∀ d ∈ st'.body, d ≠ DisplayLine.EmptySourceLine) ∧
    (st.body ≠ [] → st'.body ≠ []) := by
  rcases place_one_body_cases ls le idx st st' rem a h with
    hb | ⟨m, hb⟩ | ⟨x, hx, hb⟩ | ⟨m, x, hx, hb⟩
  · rw [hb]; exact ⟨id, id, id⟩
  · rw [hb]
    refine ⟨push_mark_head_src m _ st.body, ?_, push_mark_ne_nil m _ st.body⟩
    intro hne d hd
    rcases push_mark_mem m _ st.body d hd with h1 | ⟨d0, hd0, he⟩
    · exact hne d h1
    · rw [he]; exact mark_line_ne_empty m d0 (hne d0 hd0)
  · rw [hb]
    refine ⟨?_, ?_, insert_at_succ_ne_nil _ x st.body⟩
    · intro h0 d hd
      rw [insert_at_succ_head] at hd
      exact h0 d hd
    · intro hne d hd
      rcases insert_at_mem _ x st.body d hd with h1 | he
      · exact hne d h1
      · rw [he]; intro hE; rw [hE] at hx; simp [is_al] at hx
  · rw [hb]
    refine ⟨?_, ?_, ?_⟩
    · intro h0 d hd
      rw [insert_at_succ_head] at hd
      exact push_mark_head_src m _ st.body h0 d hd
    · intro hne d hd
      rcases insert_at_mem _ x (push_mark m _ st.body) d hd with h1 | he
      · rcases push_mark_mem m _ st.body d h1 with h2 | ⟨d0, hd0, he2⟩
        · exact hne d h2
        · rw [he2]; exact mark_line_ne_empty m d0 (hne d0 hd0)
      · rw [he]; intro hE; rw [hE] at hx; simp [is_al] at hx
    · intro hne
      exact insert_at_succ_ne_nil _ x _ (push_mark_ne_nil m _ st.body hne)

theorem drain_place_preserves (ls le idx : Nat) (anns anns' : List Annotation)
    (st st' : PlaceState) (h : drain_place ls le idx anns st = some (anns', st')) :
    ((∀ d ∈ st.body.head?, is_src d = true) → ∀ d ∈ st'.body.head?, is_src d = true) ∧
    ((∀ d ∈ st.body, d ≠ DisplayLine.EmptySourceLine) →
      ∀ d ∈ st'.body, d ≠ DisplayLine.EmptySourceLine) ∧
    (st.body ≠ [] → st'.body ≠ []) := by
  induction anns generalizing anns' st with
  | nil =>
      unfold drain_place at h
      simp at h
      rw [h.2]
      exact ⟨id, id, id⟩
  | cons a rest ih =>
      unfold drain_place at h
      split at h
      · cases h
      · rename_i st1 removed heq
        split at h
        · cases h
        · rename_i keep st2 heq2
          simp at h
          obtain ⟨h1, h2⟩ := h
          subst h2
          obtain ⟨p1, p2, p3⟩ := place_one_preserves ls le idx st st1 removed a heq
          obtain ⟨q1, q2, q3⟩ := ih keep st1 heq2
          exact ⟨fun hh => q1 (p1 hh), fun hh => q2 (p2 hh), fun hh => q3 (p3 hh)⟩

theorem place_lines_preserves (r : List (Nat × Nat)) (idx : Nat)
    (anns anns' : List Annotation) (st st' : PlaceState)
    (h : place_lines r idx anns st = some (anns', st')) :
    ((∀ d ∈ st.body.head?, is_src d = true) → ∀ d ∈ st'.body.head?, is_src d = true) ∧
    ((∀ d ∈ st.body, d ≠ DisplayLine.EmptySourceLine) →
      ∀ d ∈ st'.body, d ≠ DisplayLine.EmptySourceLine) ∧
    (st.body ≠ [] → st'.body ≠ []) := by
  induction r generalizing idx anns st with
  | nil =>
      unfold place_lines at h
      simp at h
      rw [h.2]
      exact ⟨id, id, id⟩
  | cons q rest ih =>
      obtain ⟨ls, le⟩ := q
      unfold place_lines at h
      split at h
      · cases h
      · rename_i anns1 st1 heq
        obtain ⟨p1, p2, p3⟩ := drain_place_preserves ls le idx anns anns1 st st1 heq
        obtain ⟨q1, q2, q3⟩ := ih (idx + 1) anns1 st1 h
        exact ⟨fun hh => q1 (p1 hh), fun hh => q2 (p2 hh), fun hh => q3 (p3 hh)⟩

theorem mk_body_no_empty (ls : List String) (n : Nat) :
    ∀ d ∈ mk_body ls n, d ≠ DisplayLine.EmptySourceLine := by
  induction ls generalizing n with
  | nil => intro d hd; cases hd
  | cons l rest ih =>
      intro d hd
      cases hd with
      | head => simp
      | tail _ h => exact ih (n + 1) d h


/-! Claim theorems -/

/-- Claim C1 (code bug evidence): on a 20-plain-line source with one
annotation on line 1 and one on line 20, the engine produces exactly one
`FoldLine`, but keeps only the 4 source lines 2-5 after the line-1
annotation (line 6 is collapsed into the fold), not the 5 lines the claim
states; the 2 context lines 19-20 before the line-20 annotation are kept.
The shortfall comes from `no_annotation_lines_counter += 0`, which never
resets the counter, so the fold window start `idx - counter + 5` is offset
by the entries that precede the first annotation line. -/
theorem c1_fold_output :
    format_body (snip_a 20 [ann_at 0, ann_at 19]) =
      some [DisplayLine.EmptySourceLine, sla 1, ala, sla 2, sla 3, sla 4, sla 5,
        DisplayLine.FoldLine, sla 19, sla 20, ala, DisplayLine.EmptySourceLine] := rfl

/-- Claim C2 (code bug evidence): the fold counter does not reset at
annotation lines.  With annotations on lines 1, 8 and 15 of a 15-line
source every unannotated run has length at most 7, so under the claimed
reset semantics no fold may occur; the code's never-reset counter reaches
15 at the third caption, triggering a fold whose window even swallows the
second caption line: the output keeps only two of the three
`AnnotationLine`s. -/
theorem c2_fold_counts_all :
    format_body (snip_a 15 [ann_at 0, ann_at 7, ann_at 14]) =
      some [DisplayLine.EmptySourceLine, sla 1, ala, sla 2, sla 3, sla 4, sla 5,
        sla 6, DisplayLine.FoldLine, sla 14, sla 15, ala,
        DisplayLine.EmptySourceLine] := rfl

/-- Claim C3 (code bug evidence): the conversion is not total.  On a
40-plain-line source with well-formed annotations on lines 1, 20 and 40,
the first fold moves `idx` back without resetting the counter, so at the
third caption `idx - no_annotation_lines_counter` is `30 - 40`: a `usize`
subtraction overflow (debug panic; in release the wrapped value makes the
subsequent `splice` range out of bounds, which also panics).  The model
returns `none` exactly on those panic paths. -/
theorem c3_fold_panics :
    format_body (snip_a 40 [ann_at 0, ann_at 19, ann_at 39]) = none := rfl

/-- Claim C6 (counterexample): for the single-line source `abc` with one
fully-contained annotation, the body is `[EmptySourceLine, SourceLine,
AnnotationLine, EmptySourceLine]`: an `AnnotationLine` appears after the
last `SourceLine`, so the claimed edge invariant is false. -/
theorem c6_counterexample :
    (format_body snip_abc).map edges_clear = some false := rfl

/-- Claim C10: an annotation whose range has a start offset but no end
offset never matches any placement arm against any line: the state is
unchanged (no caption inserted, no inline mark attached) and the
annotation is not removed from the pending set. -/
theorem c10_start_without_end (ls le idx : Nat) (st : PlaceState)
    (lab idv : Option String) (ty : AnnotationType) (s : Nat) :
    place_one ls le idx st
      { label := lab, id := idv, annotation_type := ty, range := (some s, none) } =
      some (st, false) := by
  unfold place_one
  by_cases h : s > le <;> simp [h]

/-- Claim C4: an annotation whose start and end both fall within one line's
offset range produces, immediately after that line's `SourceLine`, an
`AnnotationLine` with the line-relative column range
`(start - line_start, end - line_start)`, the annotation's label and its
severity, and the annotation is removed from the pending set (the placement
result carries an empty pending list); the adjacent pair survives folding
and padding into the final body.  Stated for a snippet with that single
annotation on an arbitrary line of an arbitrary source. -/
theorem c4_contained_placement (pre post : List String) (lk : String)
    (n0 : Nat) (o : Option String) (src : String) (mp tp : Option Nat)
    (a : Annotation) (s e : Nat)
    (hr : a.range = (some s, some e))
    (hsrc : rust_lines src = pre ++ lk :: post)
    (h1 : cost pre ≤ s) (h2 : s ≤ cost pre + lk.length + 1)
    (h3 : cost pre ≤ e) (h4 : e ≤ cost pre + lk.length + 1) :
    place_lines (mk_ranges (pre ++ lk :: post) 0) 0 [a]
        (PlaceState.mk (mk_body (pre ++ lk :: post) n0) 0) =
      some ([], PlaceState.mk (mk_body pre n0 ++
          DisplayLine.SourceLine (n0 + pre.length) [] lk ::
          DisplayLine.AnnotationLine [] (s - cost pre, e - cost pre)
            (a.label.getD "") (display_from a.annotation_type) ::
          mk_body post (n0 + pre.length + 1)) 1) ∧
    ∃ u v, format_body (Snippet.mk (Slice.mk src n0 o) [a] mp tp) =
      some (u ++ DisplayLine.SourceLine (n0 + pre.length) [] lk ::
        DisplayLine.AnnotationLine [] (s - cost pre, e - cost pre)
          (a.label.getD "") (display_from a.annotation_type) :: v) := by
  have hplace : place_lines (mk_ranges (pre ++ lk :: post) 0) 0 [a]
      (PlaceState.mk (mk_body (pre ++ lk :: post) n0) 0) =
      some ([], PlaceState.mk (mk_body pre n0 ++
        DisplayLine.SourceLine (n0 + pre.length) [] lk ::
        DisplayLine.AnnotationLine [] (s - cost pre, e - cost pre)
          (a.label.getD "") (display_from a.annotation_type) ::
        mk_body post (n0 + pre.length + 1)) 1) := by
    rw [mk_ranges_append, place_lines_append]
    rw [place_lines_skip pre a s (some e) hr 0 0 _ (by omega)]
    have hone := place_one_contained (cost pre) (cost pre + (lk.length + 1))
      pre.length (PlaceState.mk (mk_body (pre ++ lk :: post) n0) 0) a s e hr
      h1 (by omega) h3 (by omega)
    simp only [Option.some_bind, Nat.zero_add, mk_ranges_length, mk_ranges,
      place_lines, drain_place, hone, if_true]
    rw [place_lines_nil_anns]
    have hbody : insert_at (pre.length + 0 + 1)
        (DisplayLine.AnnotationLine [] (s - cost pre, e - cost pre)
          (a.label.getD "") (display_from a.annotation_type))
        (mk_body (pre ++ lk :: post) n0) =
        mk_body pre n0 ++ DisplayLine.SourceLine (n0 + pre.length) [] lk ::
          DisplayLine.AnnotationLine [] (s - cost pre, e - cost pre)
            (a.label.getD "") (display_from a.annotation_type) ::
          mk_body post (n0 + pre.length + 1) := by
      rw [mk_body_append]
      have hsplit : mk_body pre n0 ++ mk_body (lk :: post) (n0 + pre.length) =
          (mk_body pre n0 ++ [DisplayLine.SourceLine (n0 + pre.length) [] lk]) ++
            mk_body post (n0 + pre.length + 1) := by
        simp [mk_body]
      rw [hsplit]
      have hln : pre.length + 0 + 1 =
          (mk_body pre n0 ++ [DisplayLine.SourceLine (n0 + pre.length) [] lk]).length := by
        simp [mk_body_length]
      rw [hln, insert_at_length_append]
      simp
    rw [hbody]
  refine ⟨hplace, ?_⟩
  have hfold := fold_pass_single_al (mk_body pre n0)
    (mk_body post (n0 + pre.length + 1))
    (DisplayLine.SourceLine (n0 + pre.length) [] lk)
    (DisplayLine.AnnotationLine [] (s - cost pre, e - cost pre)
      (a.label.getD "") (display_from a.annotation_type))
    (mk_body_no_al pre n0) rfl rfl (mk_body_no_al post (n0 + pre.length + 1))
  rcases hfold with ⟨u, hu⟩
  refine ⟨DisplayLine.EmptySourceLine :: u,
    mk_body post (n0 + pre.length + 1) ++ [DisplayLine.EmptySourceLine], ?_⟩
  unfold format_body
  simp only [hsrc]
  rw [hplace]
  simp [hu]

/-- Claim C4 witness: the spec's concrete test, source `abc\ndef\n` with one
annotation covering columns 1-2 of line 1 labelled `oops`: the body is
exactly `SourceLine(abc)`, `AnnotationLine (1,2) oops`, `SourceLine(def)` in
order (with the bracketing padding), and the adjacency statement follows by
applying the general theorem. -/
theorem c4_contained_placement_witness :
    format_body snip_oops =
      some [DisplayLine.EmptySourceLine, DisplayLine.SourceLine 1 [] "abc",
        DisplayLine.AnnotationLine [] (1, 2) "oops" DisplayAnnotationType.Error,
        DisplayLine.SourceLine 2 [] "def", DisplayLine.EmptySourceLine] ∧
    (∃ u v, format_body snip_oops =
      some (u ++ DisplayLine.SourceLine 1 [] "abc" ::
        DisplayLine.AnnotationLine [] (1, 2) "oops" DisplayAnnotationType.Error :: v)) :=
  ⟨rfl,
    (c4_contained_placement [] ["def"] "abc" 1 none "abc\ndef\n" none none
      ann_oops 1 2 rfl rfl (by decide) (by decide) (by decide) (by decide)).2⟩

/-- Claim C5: a multi-line annotation starting at column 0 of a line gets an
`AnnotationStart` inline mark on that `SourceLine` with no caption inserted;
every fully-spanned intermediate line gets an `AnnotationThrough` mark; the
line containing the end gets an `AnnotationThrough` mark followed immediately
by an inserted `AnnotationLine` of kind `MultilineEnd` with range
`(end - line_start, end - line_start + 1)`, and the annotation is consumed
(empty pending list).  The end-line pair survives folding into the final
body. -/
theorem c5_multiline_bracketing (pre mid post : List String) (li lj : String)
    (n0 : Nat) (o : Option String) (src : String) (mp tp : Option Nat)
    (a : Annotation) (s e : Nat)
    (hr : a.range = (some s, some e))
    (hsrc : rust_lines src = pre ++ li :: (mid ++ lj :: post))
    (hs : s = cost pre)
    (he1 : cost pre + li.length + 2 + cost mid ≤ e)
    (he2 : e ≤ cost pre + li.length + 2 + cost mid + lj.length + 1) :
    place_lines (mk_ranges (pre ++ li :: (mid ++ lj :: post)) 0) 0 [a]
        (PlaceState.mk (mk_body (pre ++ li :: (mid ++ lj :: post)) n0) 0) =
      some ([], PlaceState.mk
        (mk_body pre n0 ++
          DisplayLine.SourceLine (n0 + pre.length) [DisplayMark.AnnotationStart] li ::
          (mk_body_thru mid (n0 + pre.length + 1) ++
            DisplayLine.SourceLine (n0 + pre.length + 1 + mid.length)
              [DisplayMark.AnnotationThrough] lj ::
            DisplayLine.AnnotationLine [DisplayMark.AnnotationThrough]
              (e - (cost pre + li.length + 2 + cost mid),
                e - (cost pre + li.length + 2 + cost mid) + 1)
              (a.label.getD "") DisplayAnnotationType.MultilineEnd ::
            mk_body post (n0 + pre.length + 1 + mid.length + 1))) 1) ∧
    ∃ u v, format_body (Snippet.mk (Slice.mk src n0 o) [a] mp tp) =
      some (u ++
        DisplayLine.SourceLine (n0 + pre.length + 1 + mid.length)
          [DisplayMark.AnnotationThrough] lj ::
        DisplayLine.AnnotationLine [DisplayMark.AnnotationThrough]
          (e - (cost pre + li.length + 2 + cost mid),
            e - (cost pre + li.length + 2 + cost mid) + 1)
          (a.label.getD "") DisplayAnnotationType.MultilineEnd :: v) := by
  have hplace : place_lines (mk_ranges (pre ++ li :: (mid ++ lj :: post)) 0) 0 [a]
      (PlaceState.mk (mk_body (pre ++ li :: (mid ++ lj :: post)) n0) 0) =
      some ([], PlaceState.mk
        (mk_body pre n0 ++
          DisplayLine.SourceLine (n0 + pre.length) [DisplayMark.AnnotationStart] li ::
          (mk_body_thru mid (n0 + pre.length + 1) ++
            DisplayLine.SourceLine (n0 + pre.length + 1 + mid.length)
              [DisplayMark.AnnotationThrough] lj ::
            DisplayLine.AnnotationLine [DisplayMark.AnnotationThrough]
              (e - (cost pre + li.length + 2 + cost mid),
                e - (cost pre + li.length + 2 + cost mid) + 1)
              (a.label.getD "") DisplayAnnotationType.MultilineEnd ::
            mk_body post (n0 + pre.length + 1 + mid.length + 1))) 1) := by
    rw [mk_ranges_append, place_lines_append]
    rw [place_lines_skip pre a s (some e) hr 0 0 _ (by omega)]
    have honei := place_one_start_col0 (cost pre) (cost pre + (li.length + 1)) pre.length
      (PlaceState.mk (mk_body (pre ++ li :: (mid ++ lj :: post)) n0) 0) a s e hr hs
      (by omega) (by omega)
    simp only [Option.some_bind, Nat.zero_add, mk_ranges_length, mk_ranges,
      place_lines, drain_place, honei, Bool.false_eq_true, if_false]
    have hpush : push_mark DisplayMark.AnnotationStart (pre.length + 0)
        (mk_body (pre ++ li :: (mid ++ lj :: post)) n0) =
        (mk_body pre n0 ++
          [DisplayLine.SourceLine (n0 + pre.length) [DisplayMark.AnnotationStart] li]) ++
          (mk_body mid (n0 + pre.length + 1) ++
            mk_body (lj :: post) (n0 + pre.length + 1 + mid.length)) := by
      rw [mk_body_append]
      have hshape : mk_body pre n0 ++ mk_body (li :: (mid ++ lj :: post)) (n0 + pre.length) =
          mk_body pre n0 ++ DisplayLine.SourceLine (n0 + pre.length) [] li ::
            (mk_body mid (n0 + pre.length + 1) ++
              mk_body (lj :: post) (n0 + pre.length + 1 + mid.length)) := by
        simp only [mk_body, mk_body_append]
      rw [hshape]
      have hln : pre.length + 0 = (mk_body pre n0).length := by
        simp [mk_body_length]
      rw [hln, push_mark_length_append]
      simp [mark_line]
    rw [hpush]
    rw [mk_ranges_append, place_lines_append]
    rw [place_lines_through mid a s e hr (cost pre + (li.length + 1) + 1)
      (pre.length + 1) 0
      (mk_body pre n0 ++
        [DisplayLine.SourceLine (n0 + pre.length) [DisplayMark.AnnotationStart] li])
      (mk_body (lj :: post) (n0 + pre.length + 1 + mid.length))
      (n0 + pre.length + 1) (by simp [mk_body_length]) (by omega) (by omega)]
    have honej := place_one_end (cost pre + (li.length + 1) + 1 + cost mid)
      (cost pre + (li.length + 1) + 1 + cost mid + (lj.length + 1))
      (pre.length + 1 + mid.length)
      (PlaceState.mk ((mk_body pre n0 ++
        [DisplayLine.SourceLine (n0 + pre.length) [DisplayMark.AnnotationStart] li]) ++
        (mk_body_thru mid (n0 + pre.length + 1) ++
          mk_body (lj :: post) (n0 + pre.length + 1 + mid.length))) 0) a s e hr
      (by omega) (by omega) (by omega)
    simp only [Option.some_bind, mk_ranges_length, mk_ranges, place_lines,
      drain_place, honej, if_true]
    rw [place_lines_nil_anns]
    have hae : cost pre + (li.length + 1) + 1 + cost mid =
        cost pre + li.length + 2 + cost mid := by omega
    rw [hae]
    have hpush2 : push_mark DisplayMark.AnnotationThrough
        (pre.length + 1 + mid.length + 0)
        (mk_body pre n0 ++
          [DisplayLine.SourceLine (n0 + pre.length) [DisplayMark.AnnotationStart] li] ++
          (mk_body_thru mid (n0 + pre.length + 1) ++
            mk_body (lj :: post) (n0 + pre.length + 1 + mid.length))) =
        ((mk_body pre n0 ++
          [DisplayLine.SourceLine (n0 + pre.length) [DisplayMark.AnnotationStart] li] ++
          mk_body_thru mid (n0 + pre.length + 1)) ++
          [DisplayLine.SourceLine (n0 + pre.length + 1 + mid.length)
            [DisplayMark.AnnotationThrough] lj]) ++
          mk_body post (n0 + pre.length + 1 + mid.length + 1) := by
      have hshape2 : mk_body pre n0 ++
          [DisplayLine.SourceLine (n0 + pre.length) [DisplayMark.AnnotationStart] li] ++
          (mk_body_thru mid (n0 + pre.length + 1) ++
            mk_body (lj :: post) (n0 + pre.length + 1 + mid.length)) =
          (mk_body pre n0 ++
            [DisplayLine.SourceLine (n0 + pre.length) [DisplayMark.AnnotationStart] li] ++
            mk_body_thru mid (n0 + pre.length + 1)) ++
            (DisplayLine.SourceLine (n0 + pre.length + 1 + mid.length) [] lj ::
              mk_body post (n0 + pre.length + 1 + mid.length + 1)) := by
        simp [mk_body]
      rw [hshape2]
      have hln2 : pre.length + 1 + mid.length + 0 =
          (mk_body pre n0 ++
            [DisplayLine.SourceLine (n0 + pre.length) [DisplayMark.AnnotationStart] li] ++
            mk_body_thru mid (n0 + pre.length + 1)).length := by
        simp [mk_body_length, mk_body_thru_length]
        omega
      rw [hln2, push_mark_length_append]
      simp [mark_line]
    rw [hpush2]
    have hln3 : pre.length + 1 + mid.length + 0 + 1 =
        (((mk_body pre n0 ++
          [DisplayLine.SourceLine (n0 + pre.length) [DisplayMark.AnnotationStart] li] ++
          mk_body_thru mid (n0 + pre.length + 1)) ++
          [DisplayLine.SourceLine (n0 + pre.length + 1 + mid.length)
            [DisplayMark.AnnotationThrough] lj])).length := by
      simp [mk_body_length, mk_body_thru_length]
      omega
    rw [hln3, insert_at_length_append]
    simp
  refine ⟨hplace, ?_⟩
  have hP : ∀ d ∈ (mk_body pre n0 ++
      DisplayLine.SourceLine (n0 + pre.length) [DisplayMark.AnnotationStart] li ::
      mk_body_thru mid (n0 + pre.length + 1)), is_al d = false := by
    intro d hd
    rcases List.mem_append.mp hd with h | h
    · exact mk_body_no_al pre n0 d h
    · cases h with
      | head => rfl
      | tail _ hh => exact mk_body_thru_no_al mid (n0 + pre.length + 1) d hh
  have hfold := fold_pass_single_al
    (mk_body pre n0 ++
      DisplayLine.SourceLine (n0 + pre.length) [DisplayMark.AnnotationStart] li ::
      mk_body_thru mid (n0 + pre.length + 1))
    (mk_body post (n0 + pre.length + 1 + mid.length + 1))
    (DisplayLine.SourceLine (n0 + pre.length + 1 + mid.length)
      [DisplayMark.AnnotationThrough] lj)
    (DisplayLine.AnnotationLine [DisplayMark.AnnotationThrough]
      (e - (cost pre + li.length + 2 + cost mid),
        e - (cost pre + li.length + 2 + cost mid) + 1)
      (a.label.getD "") DisplayAnnotationType.MultilineEnd)
    hP rfl rfl (mk_body_no_al post (n0 + pre.length + 1 + mid.length + 1))
  rcases hfold with ⟨u, hu⟩
  refine ⟨DisplayLine.EmptySourceLine :: u,
    mk_body post (n0 + pre.length + 1 + mid.length + 1) ++
      [DisplayLine.EmptySourceLine], ?_⟩
  have hsb : mk_body pre n0 ++
      DisplayLine.SourceLine (n0 + pre.length) [DisplayMark.AnnotationStart] li ::
      (mk_body_thru mid (n0 + pre.length + 1) ++
        DisplayLine.SourceLine (n0 + pre.length + 1 + mid.length)
          [DisplayMark.AnnotationThrough] lj ::
        DisplayLine.AnnotationLine [DisplayMark.AnnotationThrough]
          (e - (cost pre + li.length + 2 + cost mid),
            e - (cost pre + li.length + 2 + cost mid) + 1)
          (a.label.getD "") DisplayAnnotationType.MultilineEnd ::
        mk_body post (n0 + pre.length + 1 + mid.length + 1)) =
      (mk_body pre n0 ++
        DisplayLine.SourceLine (n0 + pre.length) [DisplayMark.AnnotationStart] li ::
        mk_body_thru mid (n0 + pre.length + 1)) ++
        DisplayLine.SourceLine (n0 + pre.length + 1 + mid.length)
          [DisplayMark.AnnotationThrough] lj ::
        DisplayLine.AnnotationLine [DisplayMark.AnnotationThrough]
          (e - (cost pre + li.length + 2 + cost mid),
            e - (cost pre + li.length + 2 + cost mid) + 1)
          (a.label.getD "") DisplayAnnotationType.MultilineEnd ::
        mk_body post (n0 + pre.length + 1 + mid.length + 1) := by
    simp
  rw [← hsb] at hu
  unfold format_body
  simp only [hsrc]
  rw [hplace]
  simp [hu]

/-- Claim C5 witness: the spec's bracketing test, an annotation from column 0
of line 1 to offset 6 inside line 2 of `abc\ndef\n`: line 1 carries the
`AnnotationStart` mark with no caption, line 2 carries `AnnotationThrough`
and is followed by the inserted `MultilineEnd` caption with range `(1, 2)`;
the adjacency statement follows by applying the general theorem. -/
theorem c5_multiline_bracketing_witness :
    format_body snip_span =
      some [DisplayLine.EmptySourceLine,
        DisplayLine.SourceLine 1 [DisplayMark.AnnotationStart] "abc",
        DisplayLine.SourceLine 2 [DisplayMark.AnnotationThrough] "def",
        DisplayLine.AnnotationLine [DisplayMark.AnnotationThrough] (1, 2) ""
          DisplayAnnotationType.MultilineEnd,
        DisplayLine.EmptySourceLine] ∧
    (∃ u v, format_body snip_span =
      some (u ++ DisplayLine.SourceLine 2 [DisplayMark.AnnotationThrough] "def" ::
        DisplayLine.AnnotationLine [DisplayMark.AnnotationThrough] (1, 2) ""
          DisplayAnnotationType.MultilineEnd :: v)) :=
  ⟨rfl, (c5_multiline_bracketing [] [] [] "abc" "def" 1 none "abc\ndef\n" none none
    ann_span 0 6 rfl rfl (by decide) (by decide) (by decide)).2⟩

/-- Claim C8: when the title annotation exists, the first header line is the
`RawLine` assembled as severity, bracketed code and label, the code
defaulting to `E0000` and the label to the empty string. -/
theorem c8_header_title (s : Snippet) (p : Nat) (a : Annotation)
    (hp : s.title_annotation_pos = some p)
    (ha : s.annotations.get? p = some a) :
    ∃ rest, format_header s =
      DisplayLine.RawLine (ann_type_str a.annotation_type ++ "[" ++ a.id.getD "E0000"
        ++ "]: " ++ a.label.getD "") :: rest := by
  simp only [format_header, hp, ha]
  exact ⟨_, rfl⟩

/-- Claim C8 witness: an `Error` title annotation with no label and no code
yields exactly `error[E0000]: `. -/
theorem c8_header_title_witness :
    ∃ rest, format_header snip_title = DisplayLine.RawLine "error[E0000]: " :: rest :=
  c8_header_title snip_title 0 _ rfl rfl

/-- Claim C9: a present but out-of-bounds title or main annotation index is
handled by the total `Vec::get`: the conversion behaves exactly as if that
index were absent (the corresponding header line is omitted and the body is
unchanged), with no failure introduced. -/
theorem c9_oob_index (s : Snippet) (p : Nat) (hp : s.annotations.length ≤ p) :
    (s.title_annotation_pos = some p →
      display_list_from s = display_list_from { s with title_annotation_pos := none }) ∧
    (s.main_annotation_pos = some p →
      display_list_from s = display_list_from { s with main_annotation_pos := none }) := by
  have hget : s.annotations.get? p = none := List.get?_eq_none.mpr hp
  have hgete : s.annotations[p]? = none := List.getElem?_eq_none hp
  constructor
  · intro ht
    have hh : format_header s =
        format_header { s with title_annotation_pos := none } := by
      simp [format_header, ht, hget, hgete]
    have hb : format_body s =
        format_body { s with title_annotation_pos := none } := rfl
    unfold display_list_from
    rw [hh, hb]
  · intro hm
    have hh : format_header s =
        format_header { s with main_annotation_pos := none } := by
      simp [format_header, hm, hget, hgete]
    have hb : format_body s =
        format_body { s with main_annotation_pos := none } := rfl
    unfold display_list_from
    rw [hh, hb]

/-- Claim C7: for every input snippet on which the conversion succeeds, the
assembled body is exactly one `EmptySourceLine`, then a middle section that
contains no `EmptySourceLine` at all, then one `EmptySourceLine`: the
padding brackets each end exactly once. -/
theorem c7_padding (s : Snippet) (out : List DisplayLine)
    (h : format_body s = some out) :
    ∃ mid, out = DisplayLine.EmptySourceLine ::
        (mid ++ [DisplayLine.EmptySourceLine]) ∧
      ∀ d ∈ mid, d ≠ DisplayLine.EmptySourceLine := by
  unfold format_body at h
  dsimp only at h
  split at h
  · cases h
  · rename_i pr fst st heq
    split at h
    · cases h
    · rename_i folded hfold
      simp only [Option.some.injEq] at h
      refine ⟨folded, h.symm, ?_⟩
      intro d hd
      unfold fold_pass at hfold
      rcases fold_go_mem _ _ _ _ _ hfold d hd with h1 | h1
      · exact (place_lines_preserves _ _ _ _ _ _ heq).2.1
          (mk_body_no_empty _ _) d h1
      · rw [h1]; simp

/-- Claim C7 witness: the two-entry body of an unannotated one-line source
is `EmptySourceLine, SourceLine, EmptySourceLine`. -/
theorem c7_padding_witness :
    ∃ mid, [DisplayLine.EmptySourceLine, DisplayLine.SourceLine 1 [] "ab",
        DisplayLine.EmptySourceLine] = DisplayLine.EmptySourceLine ::
        (mid ++ [DisplayLine.EmptySourceLine]) ∧
      ∀ d ∈ mid, d ≠ DisplayLine.EmptySourceLine :=
  c7_padding snip_oob _ rfl

/-- Claim C6 (amended): no `AnnotationLine` or `FoldLine` entry appears
before the first `SourceLine` of the final body (every entry of the prefix
of non-`SourceLine` entries is harmless padding); entries after the last
`SourceLine` may include `AnnotationLine`s, which the counterexample above
exhibits. -/
theorem c6_amended_no_captions_before_first (s : Snippet) (out : List DisplayLine)
    (h : format_body s = some out) :
    ∀ d ∈ out.takeWhile (fun x => ! is_src x), is_al_or_fold d = false := by
  unfold format_body at h
  dsimp only at h
  split at h
  · cases h
  · rename_i pr fst st heq
    split at h
    · cases h
    · rename_i folded hfold
      simp only [Option.some.injEq] at h
      subst h
      unfold fold_pass at hfold
      cases hls : rust_lines s.slice.source with
      | nil =>
          rw [hls] at heq
          simp [mk_ranges, place_lines, mk_body] at heq
          rw [← heq.2] at hfold
          simp [fold_go] at hfold
          subst hfold
          intro d hd
          have hE : is_src DisplayLine.EmptySourceLine = false := rfl
          simp [List.takeWhile_cons, hE] at hd
          rw [hd]
          rfl
      | cons l0 rest =>
          rw [hls] at heq
          have hpres := place_lines_preserves _ _ _ _ _ _ heq
          have hbase : ∀ d ∈ (PlaceState.mk
              (mk_body (l0 :: rest) s.slice.line_start) 0).body.head?,
              is_src d = true := by
            intro d hd
            simp [mk_body] at hd
            rw [← hd]
            rfl
          have hbne : (PlaceState.mk
              (mk_body (l0 :: rest) s.slice.line_start) 0).body ≠ [] := by
            simp [mk_body]
          have h1 := hpres.1 hbase
          have h2 := hpres.2.2 hbne
          cases hb : st.body with
          | nil => exact absurd hb h2
          | cons d0 t =>
              have hsrc0 : is_src d0 = true := by
                apply h1
                rw [hb]
                rfl
              have hhf : folded.head? = some d0 := by
                have hh := fold_go_head _ _ _ _ _ hfold
                rw [hb] at hh
                simpa using hh
              cases folded with
              | nil => simp at hhf
              | cons f0 ft =>
                  simp only [List.head?_cons, Option.some.injEq] at hhf
                  have hsf0 : is_src f0 = true := by rw [hhf]; exact hsrc0
                  intro d hd
                  have hE : is_src DisplayLine.EmptySourceLine = false := rfl
                  simp [List.takeWhile_cons, hE, hsf0] at hd
                  rw [hd]
                  rfl

/-- Claim C6 (amended) witness: applied to the one-line counterexample
snippet, whose body prefix before the first `SourceLine` is a single
`EmptySourceLine`. -/
theorem c6_amended_witness :
    format_body snip_abc =
      some [DisplayLine.EmptySourceLine, DisplayLine.SourceLine 1 [] "abc",
        DisplayLine.AnnotationLine [] (0, 1) "" DisplayAnnotationType.Error,
        DisplayLine.EmptySourceLine] ∧
    (∀ d ∈ ([DisplayLine.EmptySourceLine, DisplayLine.SourceLine 1 [] "abc",
        DisplayLine.AnnotationLine [] (0, 1) "" DisplayAnnotationType.Error,
        DisplayLine.EmptySourceLine].takeWhile (fun x => ! is_src x)),
      is_al_or_fold d = false) :=
  ⟨rfl, c6_amended_no_captions_before_first snip_abc _ rfl⟩

/-- Claim C9 witness: with zero annotations and title index 3, the
conversion equals the conversion with the index absent. -/
theorem c9_oob_index_witness :
    snip_oob.annotations.length ≤ 3 ∧
      display_list_from snip_oob =
        display_list_from { snip_oob with title_annotation_pos := none } :=
  ⟨by decide, (c9_oob_index snip_oob 3 (by decide)).1 rfl⟩

end AnnSnip
